import Mathlib

/-!
Verification of the countrywizard core against its natural-language
specification.

The Python source (src/countrywizard/base.py and src/countrywizard/api.py) is
shallowly embedded below:

* records `(country_code, feature_class, population)` become the structure
  `Record`; the float population is modelled as `Option Int` (the code only
  compares populations with `record[2] or 0`, so only the ordered values
  matter);
* the `shelve` persistent map becomes `Store := String → Option Record`;
* Python functions that can raise (`relevance_choice` raises `KeyError` when a
  feature class has no entry in `FeatureClass.RELEVANCE_HIERARCHY`) return
  `Option`, with `none` standing for the raised exception;
* Python string helpers (`str.split`, `str.strip`, `str.lower`, `str.upper`,
  `str.isupper`) are modelled character-by-character on ASCII by the
  `py_*` functions below, matching CPython's documented behaviour.
-/

namespace Countrywizard

/-- A record of the persistent map: `(country_code, feature_class, population)`
from `base.py`.  `population` is a float in the source; only its ordering and
`or 0` defaulting are ever used, so it is modelled as `Option Int`. -/
structure Record where
  country : Option String
  feature : Option String
  population : Option Int
deriving DecidableEq, Repr

/-- Sentinel `NOT_FOUND = (None, None, None)` from `base.py`. -/
def NOT_FOUND : Record := ⟨none, none, none⟩

/-- Sentinel `GeoNameBase.MISSING = (None, None, None)` from `base.py`; equal to
`NOT_FOUND` as a value. -/
def MISSING : Record := ⟨none, none, none⟩

/-- Table `FeatureClass.RELEVANCE_HIERARCHY` from `base.py`:
`{C: 0, A: 1, P: 1, T: 2, R: 3, H: 4, S: 5, L: 6, V: 7, U: 8}`. -/
def RELEVANCE_HIERARCHY : String → Option Nat := fun s =>
  if s = "C" then some 0
  else if s = "A" then some 1
  else if s = "P" then some 1
  else if s = "T" then some 2
  else if s = "R" then some 3
  else if s = "H" then some 4
  else if s = "S" then some 5
  else if s = "L" then some 6
  else if s = "V" then some 7
  else if s = "U" then some 8
  else none

/-- Indexing `hierarchy[record[1]]` in Python: the feature-class slot may be
`None`, which is never a key of the hierarchy dict, so it raises (`none`). -/
def hlookup (hier : String → Option Nat) : Option String → Option Nat
  | none => none
  | some fc => hier fc

/-- The expression `record[2] or 0` from `relevance_choice`: a null (or zero)
population counts as 0. -/
def popOr0 (r : Record) : Int := r.population.getD 0

/-- Function `relevance_choice` from `base.py` lines 387-405.  `none` models the
`KeyError` raised when a feature class is missing from the hierarchy.
Python's two-argument `max` (resp. `min`) with a key returns its first argument
unless the second argument's key is strictly greater (resp. smaller). -/
def relevance_choice (record_1 record_2 : Record)
    (hierarchy : String → Option Nat) : Option Record :=
  if record_2 = NOT_FOUND then some record_1
  else if record_1 = NOT_FOUND then some record_2
  else
    match hlookup hierarchy record_1.feature, hlookup hierarchy record_2.feature with
    | some k1, some k2 =>
      if k1 = k2 then
        some (if popOr0 record_2 ≤ popOr0 record_1 then record_1 else record_2)
      else
        some (if k1 ≤ k2 then record_1 else record_2)
    | _, _ => none

/-- Which operand object `relevance_choice` returns: `some true` when the
returned object is the second argument (`result is record_2` in Python),
`some false` when it is the first.  Every `return` in the source hands back one
of the two argument objects, so this captures referential identity for the
builder's `relevance_choice(old, new) is new` test (the two operands there are
always distinct objects: one comes from the shelf, one is freshly built). -/
def relevance_takes_second (record_1 record_2 : Record)
    (hierarchy : String → Option Nat) : Option Bool :=
  if record_2 = NOT_FOUND then some false
  else if record_1 = NOT_FOUND then some true
  else
    match hlookup hierarchy record_1.feature, hlookup hierarchy record_2.feature with
    | some k1, some k2 =>
      if k1 = k2 then some (decide (popOr0 record_1 < popOr0 record_2))
      else some (decide (k2 < k1))
    | _, _ => none

theorem relevance_choice_eq_takes_second (r1 r2 : Record)
    (hier : String → Option Nat) (b : Bool)
    (h : relevance_takes_second r1 r2 hier = some b) :
    relevance_choice r1 r2 hier = some (if b then r2 else r1) := by
  unfold relevance_takes_second at h
  unfold relevance_choice
  by_cases h2 : r2 = NOT_FOUND
  · rw [if_pos h2] at h ⊢
    injection h with h
    subst h
    rfl
  · by_cases h1 : r1 = NOT_FOUND
    · rw [if_neg h2, if_pos h1] at h ⊢
      injection h with h
      subst h
      rfl
    · rw [if_neg h2, if_neg h1] at h ⊢
      rcases hk1 : hlookup hier r1.feature with _ | k1
      · rcases hk2 : hlookup hier r2.feature with _ | k2 <;>
          simp [hk1, hk2] at h
      · rcases hk2 : hlookup hier r2.feature with _ | k2
        · simp [hk1, hk2] at h
        · simp only [hk1, hk2] at h ⊢
          by_cases hk : k1 = k2
          · rw [if_pos hk] at h ⊢
            injection h with h
            subst h
            by_cases hp : popOr0 r1 < popOr0 r2
            · simp [hp, not_le.mpr hp]
            · simp [hp, not_lt.mp hp]
          · rw [if_neg hk] at h ⊢
            injection h with h
            subst h
            by_cases hkk : k2 < k1
            · simp [not_le.mpr hkk, hkk]
            · simp [not_lt.mp hkk, hkk]

/-! ### Python string primitives (ASCII model) -/

/-- Python `str.lower` (ASCII model). -/
def py_lower (s : String) : String := String.mk (s.data.map Char.toLower)

/-- Python `str.upper` (ASCII model). -/
def py_upper (s : String) : String := String.mk (s.data.map Char.toUpper)

/-- Python `str.strip` with no argument: drop whitespace from both ends. -/
def py_strip (s : String) : String :=
  String.mk (((s.data.dropWhile Char.isWhitespace).reverse.dropWhile
    Char.isWhitespace).reverse)

/-- Python `str.isupper` (ASCII model): at least one cased character and every
cased character upper-case. -/
def py_isupper (s : String) : Bool :=
  s.data.any Char.isAlpha && s.data.all (fun c => !c.isAlpha || c.isUpper)

/-- Worker for `py_split`: scan the input, cutting at each non-overlapping
occurrence of the (non-empty) separator, as Python `str.split(sep)` does.
`skip` counts separator characters still to be consumed after a cut. -/
def py_split_aux (sep : List Char) : List Char → List Char → Nat → List (List Char)
  | [], acc, _ => [acc.reverse]
  | c :: cs, acc, skip =>
    match skip with
    | Nat.succ k => py_split_aux sep cs acc k
    | 0 =>
      if List.isPrefixOf sep (c :: cs) then
        acc.reverse :: py_split_aux sep cs [] (sep.length - 1)
      else
        py_split_aux sep cs (c :: acc) 0

/-- Python `str.split(sep)` for a non-empty separator (empty pieces are kept,
`"".split(sep) == [""]`).  Python raises `ValueError` on an empty separator and
the source never splits on one; the `[s]` branch here exists only so that the
spec-modelled variant of the normalizer below can express the spec's final
"whole string as one token" strategy. -/
def py_split (sep s : String) : List String :=
  if sep.data = [] then [s] else (py_split_aux sep.data s.data [] 0).map String.mk

/-- Worker for `py_split_ws`: Python whitespace-run splitting (no empties). -/
def py_split_ws_aux : List Char → List Char → List (List Char)
  | [], [] => []
  | [], acc => [acc.reverse]
  | c :: cs, acc =>
    if c.isWhitespace then
      match acc with
      | [] => py_split_ws_aux cs []
      | _ => acc.reverse :: py_split_ws_aux cs []
    else
      py_split_ws_aux cs (c :: acc)

/-- Python `str.split()` with no argument: split on whitespace runs, dropping
empty pieces. -/
def py_split_ws (s : String) : List String :=
  (py_split_ws_aux s.data []).map String.mk

/-- Worker for `join_space`: interpose a single space. -/
def join_space_aux : List (List Char) → List Char
  | [] => []
  | [w] => w
  | w :: ws => w ++ ' ' :: join_space_aux ws

/-- Python `" ".join(words)`. -/
def join_space (ws : List String) : String :=
  String.mk (join_space_aux (ws.map String.data))

/-- The idiom `" ".join(s.split())`: collapse internal whitespace runs to a
single space and strip the ends. -/
def collapse_ws (s : String) : String := join_space (py_split_ws s)

/-! ### The persistent map and the source-adapter writes -/

/-- The `shelve` persistent map, modelled as a partial map from keys to
records. -/
def Store : Type := String → Option Record

/-- Writing one key of the map (`db[key] = record`). -/
def Store.set (db : Store) (k : String) (v : Record) : Store :=
  fun q => if q = k then some v else db q

/-- One write of `Geonames.push_data` (base.py lines 236-241): insert a fresh
key; on collision overwrite only when `relevance_choice(old, new) is new`,
i.e. when the comparator hands back its second operand object.  `none` models
the `KeyError` escaping from `relevance_choice`. -/
def geonames_write_name (db : Store) (name : String) (new_record : Record)
    (hier : String → Option Nat) : Option Store :=
  match db name with
  | some old_record =>
    match relevance_takes_second old_record new_record hier with
    | some true => some (Store.set db name new_record)
    | some false => some db
    | none => none
  | none => some (Store.set db name new_record)

/-- One row of `CountryAliases.push_data` (base.py lines 253-259):
`db[row.Alias.lower()] = (row.iso3, FeatureClass.C, None)` — an unconditional
overwrite, with no relevance comparison. -/
def country_aliases_write (db : Store) (alias_name iso3 : String) : Store :=
  Store.set db (py_lower alias_name) ⟨some iso3, some "C", none⟩

/-- One row of `CountryCodes.push_data` (base.py lines 280-283):
`db[row.alpha2.upper()] = (row.alpha3, FeatureClass.C, None)` — an
unconditional overwrite, with no relevance comparison. -/
def country_codes_write (db : Store) (alpha2 alpha3 : String) : Store :=
  Store.set db (py_upper alpha2) ⟨some alpha3, some "C", none⟩

/-! ### The lookup store -/

/-- The normalized key built by `GeoNameBase.search`:
`" ".join(geoname.strip().lower().split())`. -/
def search_key (geoname : String) : String :=
  collapse_ws (py_lower (py_strip geoname))

/-- Method `GeoNameBase.search` (base.py lines 324-351): fetch the record for the
normalized key (defaulting to the all-null `MISSING`), then the lazy
alpha-2 → alpha-3 elevation: a 2-character country field is re-looked-up
upper-cased, replacing only the country field; failing that, a 2-character key
with a fully upper-case raw input is elevated the same way; an elevation miss
keeps the pre-elevation country value. -/
def search (db : Store) (geoname : String) : Record :=
  let key := search_key geoname
  let r := (db key).getD MISSING
  let alpha2 : Option String :=
    match r.country with
    | some c =>
      if c.data.length = 2 then some (py_upper c)
      else if key.data.length = 2 ∧ py_isupper geoname = true then
        some (py_upper key)
      else none
    | none =>
      if key.data.length = 2 ∧ py_isupper geoname = true then
        some (py_upper key)
      else none
  match alpha2 with
  | some a2 =>
    match db a2 with
    | some r2 => ⟨r2.country, r.feature, r.population⟩
    | none => r
  | none => r

/-! ### The location normalizer (api.py) -/

/-- Tuple `CONTENT_SEPARATORS = (*",&|/", " (")` from api.py line 10. -/
def CONTENT_SEPARATORS : List String := [",", "&", "|", "/", " ("]

/-- Predicate `_char_ok` from api.py: keep alphanumerics plus space, hyphen, period. -/
def char_ok (c : Char) : Bool :=
  c = ' ' || c = '-' || c = '.' || c.isAlphanum

/-- Function `_transform_word_to_query` from api.py: filter characters, strip, lower. -/
def transform_word_to_query (word : String) : String :=
  py_lower (py_strip (String.mk (word.data.filter char_ok)))

/-- A blacklist is a tuple of compiled patterns; each is modelled as the
predicate `pat.match(word)` it induces on words. -/
def BlackList : Type := List (String → Bool)

/-- The token loop of `_normalize_location_impl` (api.py lines 29-39): before
each token, stop if accumulated hits exceed the tolerance; otherwise count a
hit if any pattern matches the stripped token, derive the query string, and
when it is non-empty fold the search result into the running record.  `none`
models a `KeyError` escaping from `relevance_choice`. -/
def normalize_words (db : Store) (blacklist : BlackList) (tol : Nat)
    (hier : String → Option Nat) :
    List String → Record → Nat → Option (Record × Nat)
  | [], result, hits => some (result, hits)
  | word :: rest, result, hits =>
    if tol < hits then some (result, hits)
    else
      let hits' := hits + (if blacklist.any (fun pat => pat word) then 1 else 0)
      let q := transform_word_to_query word
      if q = "" then normalize_words db blacklist tol hier rest result hits'
      else
        match relevance_choice result (search db q) hier with
        | some result' => normalize_words db blacklist tol hier rest result' hits'
        | none => none

/-- Function `_normalize_location_impl` (api.py lines 22-39): split the location on the
separator, strip each token, and run the token loop from the seed record with
a zero hit counter. -/
def normalize_location_impl (db : Store) (location : String)
    (blacklist : BlackList) (tol : Nat) (prev_result : Record) (sep : String)
    (hier : String → Option Nat) : Option (Record × Nat) :=
  normalize_words db blacklist tol hier
    ((py_split sep location).map py_strip) prev_result 0

/-- The strategy loop of `_normalize_location` (api.py lines 50-60): run each
separator strategy in turn on the same location string, seeding it with the
running result; a strategy whose hit count exceeds the tolerance is discarded
and ends the loop, keeping the result accumulated so far. -/
def normalize_location_seps (db : Store) (location : String)
    (blacklist : BlackList) (tol : Nat) (hier : String → Option Nat) :
    List String → Record → Option Record
  | [], result => some result
  | sep :: rest, result =>
    match normalize_location_impl db location blacklist tol result sep hier with
    | some (normalized, hits) =>
      if tol < hits then some result
      else normalize_location_seps db location blacklist tol hier rest normalized
    | none => none

/-- Function `_normalize_location` (api.py lines 42-61): collapse whitespace once; an
empty result short-circuits to `NOT_FOUND`; otherwise run the separator
strategies over the collapsed string starting from `NOT_FOUND`. -/
def normalize_location (db : Store) (location : String)
    (blacklist : BlackList) (tol : Nat) : Option Record :=
  let loc := collapse_ws (py_strip location)
  if loc = "" then some NOT_FOUND
  else normalize_location_seps db loc blacklist tol RELEVANCE_HIERARCHY
    CONTENT_SEPARATORS NOT_FOUND

/-! ### The build driver (base.py lines 315-322)

`GeoNameBase.build` raises `ValueError` when no sources are configured, then
runs `set(executor.map(methodcaller("push", self.db), self.sources))`.
`ThreadPoolExecutor.map` yields the workers' outcomes in source order and
iterating it re-raises the first worker exception; the submitted workers
themselves all run to completion regardless.  The observable control flow of
that iteration is modelled sequentially below: each source's `push` outcome is
an `Except` value, and `build` returns the first raised exception, if any. -/

/-- The full iteration `set(it)` over the worker outcomes: the first exception
is re-raised. -/
def iterate_results : List (Except String Unit) → Except String Unit
  | [] => Except.ok ()
  | Except.ok () :: rest => iterate_results rest
  | Except.error e :: _ => Except.error e

/-- Method `GeoNameBase.build`: `ValueError` on an empty source tuple, otherwise the
iteration over the per-source worker outcomes. -/
def build : List (Except String Unit) → Except String Unit
  | [] => Except.error "ValueError: no source datasets specified!"
  | workers => iterate_results workers

/-! ### The spec's claimed normalizer (for claim C3)

The spec claims a sixth, final "no separator" strategy that treats the whole
collapsed string as one token.  No such strategy exists in api.py:
`_normalize_location` iterates exactly over `CONTENT_SEPARATORS`, and the
empty-separator default of `_normalize_location_impl` is never used (Python's
`str.split("")` would raise `ValueError`). -/

/-- Modelled from the spec: the claimed separator-strategy list, ending with
the "no separator" strategy (spec section 4.5 step 2), which `py_split`
interprets as "whole string as one token". -/
def CONTENT_SEPARATORS_claimed : List String := [",", "&", "|", "/", " (", ""]

/-- Modelled from the spec: the normalizer as claimed, identical to
`normalize_location` except for the extra final no-separator strategy. -/
def normalize_location_claimed (db : Store) (location : String)
    (blacklist : BlackList) (tol : Nat) : Option Record :=
  let loc := collapse_ws (py_strip location)
  if loc = "" then some NOT_FOUND
  else normalize_location_seps db loc blacklist tol RELEVANCE_HIERARCHY
    CONTENT_SEPARATORS_claimed NOT_FOUND

/-- C1: the full case analysis of `relevance_choice`: `NOT_FOUND` in the second
slot returns the first argument (covering the both-`NOT_FOUND` case), a lone
`NOT_FOUND` in the first slot returns the second argument; with equal ranks the
greater `or 0` population wins with the first operand kept on a tie; with
different ranks the smaller rank wins regardless of population. -/
theorem c1_relevance_choice_rules (r1 r2 : Record) (hier : String → Option Nat) :
    (r2 = NOT_FOUND → relevance_choice r1 r2 hier = some r1) ∧
    (r1 = NOT_FOUND → r2 ≠ NOT_FOUND → relevance_choice r1 r2 hier = some r2) ∧
    (∀ k1 k2 : Nat, r1 ≠ NOT_FOUND → r2 ≠ NOT_FOUND →
      hlookup hier r1.feature = some k1 → hlookup hier r2.feature = some k2 →
      (k1 = k2 → relevance_choice r1 r2 hier =
          some (if popOr0 r2 ≤ popOr0 r1 then r1 else r2)) ∧
      (k1 ≠ k2 → relevance_choice r1 r2 hier =
          some (if k1 < k2 then r1 else r2))) := by
  refine ⟨fun h2 => by simp [relevance_choice, h2], fun h1 h2 => by simp [relevance_choice, h1, h2], ?_⟩
  intro k1 k2 h1 h2 hk1 hk2
  constructor
  · intro hk
    simp [relevance_choice, h1, h2, hk1, hk2, hk]
  · intro hk
    simp only [relevance_choice, h1, h2, hk1, hk2, if_neg h2, if_neg h1]
    simp only [hk, if_false]
    rcases lt_trichotomy k1 k2 with hlt | heq | hgt
    · simp [le_of_lt hlt, hlt]
    · exact absurd heq hk
    · simp [not_le.mpr hgt, not_lt.mpr (le_of_lt hgt)]

/-- C1 witness: concrete evaluation of each branch of the rules. -/
theorem c1_relevance_choice_rules_witness :
    relevance_choice ⟨some "USA", some "C", none⟩ NOT_FOUND RELEVANCE_HIERARCHY =
      some ⟨some "USA", some "C", none⟩ ∧
    relevance_choice ⟨some "USA", some "P", some 3⟩ ⟨some "FRA", some "P", some 3⟩
        RELEVANCE_HIERARCHY = some ⟨some "USA", some "P", some 3⟩ ∧
    relevance_choice ⟨some "USA", some "P", some 3⟩ ⟨some "FRA", some "C", none⟩
        RELEVANCE_HIERARCHY = some ⟨some "FRA", some "C", none⟩ := by
  refine ⟨(c1_relevance_choice_rules _ _ _).1 (by decide), ?_, ?_⟩
  · have h := ((c1_relevance_choice_rules ⟨some "USA", some "P", some 3⟩
      ⟨some "FRA", some "P", some 3⟩ RELEVANCE_HIERARCHY).2.2 1 1
      (by decide) (by decide) (by decide) (by decide)).1 rfl
    exact h.trans (by decide)
  · have h := ((c1_relevance_choice_rules ⟨some "USA", some "P", some 3⟩
      ⟨some "FRA", some "C", none⟩ RELEVANCE_HIERARCHY).2.2 1 0
      (by decide) (by decide) (by decide) (by decide)).2 (by decide)
    exact h.trans (by decide)

/-- C8: `relevance_choice` is commutative for real ranked records except on an
exact rank-and-population tie, where each call returns its own first operand. -/
theorem c8_relevance_choice_comm (r1 r2 : Record) (hier : String → Option Nat)
    (k1 k2 : Nat) (h1 : r1 ≠ NOT_FOUND) (h2 : r2 ≠ NOT_FOUND)
    (hk1 : hlookup hier r1.feature = some k1)
    (hk2 : hlookup hier r2.feature = some k2) :
    (¬(k1 = k2 ∧ popOr0 r1 = popOr0 r2) →
        relevance_choice r1 r2 hier = relevance_choice r2 r1 hier) ∧
    (k1 = k2 → popOr0 r1 = popOr0 r2 →
        relevance_choice r1 r2 hier = some r1 ∧
        relevance_choice r2 r1 hier = some r2) := by
  constructor
  · intro hnt
    simp only [relevance_choice, if_neg h1, if_neg h2, hk1, hk2]
    by_cases hk : k1 = k2
    · subst hk
      simp only [if_pos rfl]
      have hp : popOr0 r1 ≠ popOr0 r2 := fun h => hnt ⟨rfl, h⟩
      rcases lt_trichotomy (popOr0 r1) (popOr0 r2) with hlt | heq | hgt
      · simp [not_le.mpr hlt, le_of_lt hlt]
      · exact absurd heq hp
      · simp [not_le.mpr hgt, le_of_lt hgt]
    · have hk' : k2 ≠ k1 := fun h => hk h.symm
      simp only [if_neg hk, if_neg hk']
      rcases lt_trichotomy k1 k2 with hlt | heq | hgt
      · simp [le_of_lt hlt, not_le.mpr hlt]
      · exact absurd heq hk
      · simp [le_of_lt hgt, not_le.mpr hgt]
  · intro hk hp
    subst hk
    constructor
    · simp [relevance_choice, h1, h2, hk1, hk2, le_of_eq hp.symm]
    · simp [relevance_choice, h1, h2, hk1, hk2, le_of_eq hp]

/-- C8 witness: distinct ranks commute; an exact tie returns each first
operand. -/
theorem c8_relevance_choice_comm_witness :
    relevance_choice ⟨some "USA", some "P", some 3⟩ ⟨some "FRA", some "C", none⟩
        RELEVANCE_HIERARCHY =
      relevance_choice ⟨some "FRA", some "C", none⟩ ⟨some "USA", some "P", some 3⟩
        RELEVANCE_HIERARCHY ∧
    relevance_choice ⟨some "USA", some "P", some 3⟩ ⟨some "FRA", some "P", some 3⟩
        RELEVANCE_HIERARCHY = some ⟨some "USA", some "P", some 3⟩ := by
  constructor
  · exact (c8_relevance_choice_comm ⟨some "USA", some "P", some 3⟩
      ⟨some "FRA", some "C", none⟩ RELEVANCE_HIERARCHY 1 0
      (by decide) (by decide) (by decide) (by decide)).1 (by decide)
  · exact ((c8_relevance_choice_comm ⟨some "USA", some "P", some 3⟩
      ⟨some "FRA", some "P", some 3⟩ RELEVANCE_HIERARCHY 1 1
      (by decide) (by decide) (by decide) (by decide)).2 rfl rfl).1

/-- C10: whenever `relevance_choice` returns without raising, the returned
record is one of its two operands, and it is exactly the operand in the slot
reported by `relevance_takes_second` — the value-level image of the source
returning one of the two argument objects verbatim in every branch, which is
what makes the builder's `relevance_choice(existing, new) is new` test
well defined. -/
theorem c10_relevance_choice_returns_operand (r1 r2 : Record)
    (hier : String → Option Nat) :
    (∀ r, relevance_choice r1 r2 hier = some r → r = r1 ∨ r = r2) ∧
    (∀ b, relevance_takes_second r1 r2 hier = some b →
        relevance_choice r1 r2 hier = some (if b then r2 else r1)) := by
  constructor
  · intro r hr
    unfold relevance_choice at hr
    by_cases h2 : r2 = NOT_FOUND
    · simp [h2] at hr; exact Or.inl hr.symm
    · by_cases h1 : r1 = NOT_FOUND
      · simp [h1, h2] at hr; exact Or.inr hr.symm
      · simp only [if_neg h2, if_neg h1] at hr
        rcases hk1 : hlookup hier r1.feature with _ | k1 <;>
          rcases hk2 : hlookup hier r2.feature with _ | k2 <;>
            simp [hk1, hk2] at hr
        by_cases hk : k1 = k2 <;> simp [hk] at hr
        · by_cases hp : popOr0 r2 ≤ popOr0 r1 <;> simp [hp] at hr
          · exact Or.inl hr.symm
          · exact Or.inr hr.symm
        · by_cases hkk : k1 ≤ k2 <;> simp [hkk] at hr
          · exact Or.inl hr.symm
          · exact Or.inr hr.symm
  · intro b hb
    exact relevance_choice_eq_takes_second r1 r2 hier b hb

/-- C10 witness: a concrete call returns its first operand, as reported. -/
theorem c10_relevance_choice_returns_operand_witness :
    (⟨some "FRA", some "C", none⟩ : Record) = ⟨some "FRA", some "C", none⟩ ∨
      (⟨some "FRA", some "C", none⟩ : Record) = ⟨some "USA", some "P", some 3⟩ := by
  exact (c10_relevance_choice_returns_operand ⟨some "FRA", some "C", none⟩
    ⟨some "USA", some "P", some 3⟩ RELEVANCE_HIERARCHY).1
    ⟨some "FRA", some "C", none⟩ (by decide)

/-! ### Claim C2 (corrected) -/

/-- A concrete store holding one alias record, for claim C2. -/
def db_c2 : Store := fun k =>
  if k = "america" then some ⟨some "USA", some "C", none⟩ else none

/-- C2 counterexample: the country-alias adapter does NOT resolve collisions
with the relevance comparator.  At key `"america"` the existing record
`("USA", C, None)` wins the relevance comparison against the incoming
`("ABW", C, None)` (equal rank `C`, population tie, first operand kept), so on
the claim the existing record should survive; the alias write nevertheless
replaces it unconditionally. -/
theorem c2_aliases_ignore_relevance_counterexample :
    db_c2 "america" = some ⟨some "USA", some "C", none⟩ ∧
    relevance_choice ⟨some "USA", some "C", none⟩ ⟨some "ABW", some "C", none⟩
      RELEVANCE_HIERARCHY = some ⟨some "USA", some "C", none⟩ ∧
    relevance_takes_second ⟨some "USA", some "C", none⟩ ⟨some "ABW", some "C", none⟩
      RELEVANCE_HIERARCHY = some false ∧
    country_aliases_write db_c2 "America" "ABW" "america" =
      some ⟨some "ABW", some "C", none⟩ ∧
    (⟨some "ABW", some "C", none⟩ : Record) ≠ ⟨some "USA", some "C", none⟩ := by
  refine ⟨rfl, by decide, by decide, ?_, by decide⟩
  simp [country_aliases_write, Store.set, py_lower]

/-- C2 (amended): the persistent map holds at most one record per key (it is a
key-indexed map by construction), and only the place-row adapter resolves
collisions with the relevance comparator — a fresh key is inserted, and an
occupied key is overwritten exactly when `relevance_choice(existing, new)`
hands back the new record (second operand).  The country-alias and
country-code adapters overwrite their key unconditionally, whatever record was
there. -/
theorem c2_push_collision_amended :
    (∀ (db : Store) (name : String) (new_record : Record)
        (hier : String → Option Nat), db name = none →
        geonames_write_name db name new_record hier =
          some (Store.set db name new_record)) ∧
    (∀ (db : Store) (name : String) (new_record old_record : Record)
        (hier : String → Option Nat), db name = some old_record →
        (relevance_takes_second old_record new_record hier = some true →
          geonames_write_name db name new_record hier =
            some (Store.set db name new_record)) ∧
        (relevance_takes_second old_record new_record hier = some false →
          geonames_write_name db name new_record hier = some db)) ∧
    (∀ (db : Store) (alias_name iso3 : String),
        country_aliases_write db alias_name iso3 (py_lower alias_name) =
          some ⟨some iso3, some "C", none⟩) ∧
    (∀ (db : Store) (alpha2 alpha3 : String),
        country_codes_write db alpha2 alpha3 (py_upper alpha2) =
          some ⟨some alpha3, some "C", none⟩) := by
  refine ⟨?_, ?_, ?_, ?_⟩
  · intro db name new_record hier h
    simp [geonames_write_name, h]
  · intro db name new_record old_record hier h
    constructor
    · intro ht
      simp [geonames_write_name, h, ht]
    · intro ht
      simp [geonames_write_name, h, ht]
  · intro db alias_name iso3
    simp [country_aliases_write, Store.set]
  · intro db alpha2 alpha3
    simp [country_codes_write, Store.set]

/-- C2 witness: a losing new record leaves the store untouched under the
place-row write rule. -/
theorem c2_push_collision_amended_witness :
    geonames_write_name db_c2 "america" ⟨some "ABW", some "C", none⟩
      RELEVANCE_HIERARCHY = some db_c2 :=
  (c2_push_collision_amended.2.1 db_c2 "america" ⟨some "ABW", some "C", none⟩
    ⟨some "USA", some "C", none⟩ RELEVANCE_HIERARCHY rfl).2 (by decide)

/-! ### Claim C3 (corrected) -/

/-- A store for the C3 counterexample: only the whole collapsed input,
transformed as one token, is a known key. -/
def db_c3 : Store := fun k =>
  if k = "abcde f" then some ⟨some "FRA", some "C", none⟩ else none

/-- C3 counterexample: on `"a,b&c|d/e (f"` — a location containing every one
of the five separators — no strategy of the implemented normalizer ever treats
the whole string as one token, so every query misses and the result is
`NOT_FOUND`; the claimed final no-separator strategy would query the
whole-string token `"abcde f"` and find the record.  The claimed sixth
strategy therefore does not exist in the code. -/
theorem c3_no_final_strategy_counterexample :
    normalize_location db_c3 "a,b&c|d/e (f" [] 0 = some NOT_FOUND ∧
    normalize_location_claimed db_c3 "a,b&c|d/e (f" [] 0 =
      some ⟨some "FRA", some "C", none⟩ ∧
    (⟨some "FRA", some "C", none⟩ : Record) ≠ NOT_FOUND := by
  refine ⟨by decide, by decide, by decide⟩

/-- C3 (amended): the normalizer collapses whitespace once and tries exactly
the five separator strategies comma, ampersand, pipe, slash, `" ("`, in that
fixed order — there is no final no-separator strategy — and each strategy
re-splits the whole original whitespace-collapsed string independently,
seeding its fold with the running result of the previous strategies. -/
theorem c3_separator_strategies_amended (db : Store) (location : String)
    (blacklist : BlackList) (tol : Nat) :
    normalize_location db location blacklist tol =
      (if collapse_ws (py_strip location) = "" then some NOT_FOUND
       else normalize_location_seps db (collapse_ws (py_strip location))
         blacklist tol RELEVANCE_HIERARCHY [",", "&", "|", "/", " ("]
         NOT_FOUND) ∧
    (∀ (sep : String) (rest : List String) (r0 : Record),
      normalize_location_seps db location blacklist tol RELEVANCE_HIERARCHY
          (sep :: rest) r0 =
        match normalize_words db blacklist tol RELEVANCE_HIERARCHY
            ((py_split sep location).map py_strip) r0 0 with
        | some (normalized, hits) =>
          if tol < hits then some r0
          else normalize_location_seps db location blacklist tol
            RELEVANCE_HIERARCHY rest normalized
        | none => none) ∧
    "" ∉ CONTENT_SEPARATORS := by
  refine ⟨rfl, fun sep rest r0 => rfl, by decide⟩

/-- C3 witness: the characterization instantiated at a concrete location. -/
theorem c3_separator_strategies_amended_witness :
    normalize_location db_c3 "x" [] 0 =
      (if collapse_ws (py_strip "x") = "" then some NOT_FOUND
       else normalize_location_seps db_c3 (collapse_ws (py_strip "x")) [] 0
         RELEVANCE_HIERARCHY [",", "&", "|", "/", " ("] NOT_FOUND) :=
  (c3_separator_strategies_amended db_c3 "x" [] 0).1

/-! ### Claim C4 (confirmed) -/

/-- C4: the alpha-2 elevation of `search`.  If the fetched record's country
field is a 2-character string, it is re-looked-up upper-cased and only the
country field is replaced, keeping feature class and population of the
original record (an elevation miss keeps the pre-elevation country).
Otherwise, a 2-character normalized key with a fully upper-case raw input is
elevated the same way, again falling back to the pre-elevation country on a
miss. -/
theorem c4_search_alpha2_elevation (db : Store) (geoname : String) :
    (∀ c : String,
        ((db (search_key geoname)).getD MISSING).country = some c →
        c.data.length = 2 →
        search db geoname =
          ⟨(match db (py_upper c) with
             | some r2 => r2.country
             | none => some c),
           ((db (search_key geoname)).getD MISSING).feature,
           ((db (search_key geoname)).getD MISSING).population⟩) ∧
    ((∀ c : String,
        ((db (search_key geoname)).getD MISSING).country = some c →
        c.data.length ≠ 2) →
      (search_key geoname).data.length = 2 → py_isupper geoname = true →
        search db geoname =
          ⟨(match db (py_upper (search_key geoname)) with
             | some r2 => r2.country
             | none => ((db (search_key geoname)).getD MISSING).country),
           ((db (search_key geoname)).getD MISSING).feature,
           ((db (search_key geoname)).getD MISSING).population⟩) := by
  rcases hdbk : db (search_key geoname) with _ | R
  · constructor
    · intro c hc hlen
      simp [MISSING] at hc
    · intro _ hkey hup
      simp only [search, hdbk, Option.getD_none, MISSING]
      rw [if_pos ⟨hkey, hup⟩]
      rcases hdb2 : db (py_upper (search_key geoname)) with _ | r2 <;>
        simp [hdb2, MISSING]
  · rcases R with ⟨rc, rf, rp⟩
    constructor
    · intro c hc hlen
      have hc' : rc = some c := hc
      subst hc'
      simp only [search, hdbk, Option.getD_some]
      rw [if_pos hlen]
      rcases hdb2 : db (py_upper c) with _ | r2 <;> simp [hdb2]
    · intro hnot2 hkey hup
      simp only [search, hdbk, Option.getD_some]
      rcases rc with _ | c
      · rw [if_pos ⟨hkey, hup⟩]
        rcases hdb2 : db (py_upper (search_key geoname)) with _ | r2 <;>
          simp [hdb2]
      · have hne : ¬c.data.length = 2 := hnot2 c rfl
        have hne' : ¬c.length = 2 := hne
        rcases hdb2 : db (py_upper (search_key geoname)) with _ | r2 <;>
          simp [hdb2, hne, hne', hkey, hup]

/-- A concrete store for the C4 witness: a place record with alpha-2 country
`"FR"` plus the country-code record elevating it to `"FRA"`. -/
def db_c4 : Store := fun k =>
  if k = "paris" then some ⟨some "FR", some "P", some 100⟩
  else if k = "FR" then some ⟨some "FRA", some "C", none⟩
  else none

/-- C4 witness: looking up `"Paris"` elevates `"FR"` to `"FRA"` while keeping
the original feature class and population. -/
theorem c4_search_alpha2_elevation_witness :
    search db_c4 "Paris" = ⟨some "FRA", some "P", some 100⟩ := by
  have h := (c4_search_alpha2_elevation db_c4 "Paris").1 "FR" (by decide)
    (by decide)
  exact h.trans (by decide)

/-! ### Claim C6 (corrected) -/

/-- C6 counterexample: with two sources of which only the first fails, the
build does not complete with a report of failed sources — it aborts by
re-raising that worker's exception, even though not every source failed. -/
theorem c6_build_aborts_counterexample :
    build [Except.error "SourceReadError", Except.ok ()] =
      Except.error "SourceReadError" ∧
    build [Except.error "SourceReadError", Except.ok ()] ≠ Except.ok () := by
  constructor
  · rfl
  · intro h
    exact Except.noConfusion h

/-- C6 (amended): `build` raises `ValueError` on an empty source tuple,
returns normally when every worker succeeds, and otherwise re-raises the
exception of the first failing source in source order — even when other
sources succeed.  No failure-set summary and no `BuildFailed` error exist. -/
theorem c6_build_first_failure_amended :
    (build [] = Except.error "ValueError: no source datasets specified!") ∧
    (∀ workers : List (Except String Unit), workers ≠ [] →
        (∀ w ∈ workers, w = Except.ok ()) → build workers = Except.ok ()) ∧
    (∀ (pre rest : List (Except String Unit)) (e : String),
        (∀ w ∈ pre, w = Except.ok ()) →
        build (pre ++ Except.error e :: rest) = Except.error e) := by
  have hiter : ∀ l : List (Except String Unit),
      (∀ w ∈ l, w = Except.ok ()) → iterate_results l = Except.ok () := by
    intro l
    induction l with
    | nil => intro _; rfl
    | cons w rest ih =>
      intro h
      have hw := h w (List.mem_cons_self w rest)
      subst hw
      exact ih fun x hx => h x (List.mem_cons_of_mem _ hx)
  have hfirst : ∀ (pre rest : List (Except String Unit)) (e : String),
      (∀ w ∈ pre, w = Except.ok ()) →
      iterate_results (pre ++ Except.error e :: rest) = Except.error e := by
    intro pre
    induction pre with
    | nil => intro rest e _; rfl
    | cons w pre' ih =>
      intro rest e h
      have hw := h w (List.mem_cons_self w pre')
      subst hw
      exact ih rest e fun x hx => h x (List.mem_cons_of_mem _ hx)
  refine ⟨rfl, ?_, ?_⟩
  · intro workers hne hok
    rcases workers with _ | ⟨w, rest⟩
    · exact absurd rfl hne
    · exact hiter (w :: rest) hok
  · intro pre rest e hok
    rcases pre with _ | ⟨w, pre'⟩
    · rfl
    · exact hfirst (w :: pre') rest e hok

/-- C6 witness: a failure in the second of two sources aborts the build with
that source's exception even though the first source succeeded. -/
theorem c6_build_first_failure_amended_witness :
    build [Except.ok (), Except.error "boom"] = Except.error "boom" :=
  c6_build_first_failure_amended.2.2 [Except.ok ()] [] "boom"
    (by intro w hw; simpa using hw)

/-! ### Claim C5 (confirmed) -/

/-- A concrete store for the C5 boundary scenarios. -/
def db_c5 : Store := fun k =>
  if k = "paris" then some ⟨some "FRA", some "P", some 100⟩
  else if k = "france" then some ⟨some "FRA", some "C", none⟩
  else none

/-- A concrete blacklist for the C5 boundary scenarios: one pattern matching
exactly the token `paris`, case-insensitively. -/
def bl_c5 : BlackList := [fun w => py_lower w == "paris"]

/-- C5: the blacklist-tolerance mechanics.  (1) Within one separator strategy,
no further token is processed once accumulated hits exceed the tolerance.
(2) If a strategy's hit count exceeds the tolerance, its contribution is
discarded, all later strategies are abandoned, and the running result of the
prior strategies is final.  (3) Otherwise the strategy's folded result seeds
the next strategy.  (4) With `tolerance=0` a single blacklisted token in a
comma-separated location aborts that strategy's contribution entirely, while
(5) with `tolerance=1` the hit is absorbed and later tokens still
contribute. -/
theorem c5_blacklist_tolerance :
    (∀ (db : Store) (bl : BlackList) (tol : Nat) (hier : String → Option Nat)
        (ws : List String) (result : Record) (hits : Nat), tol < hits →
        normalize_words db bl tol hier ws result hits = some (result, hits)) ∧
    (∀ (db : Store) (loc : String) (bl : BlackList) (tol : Nat)
        (hier : String → Option Nat) (seps rest : List String) (sep : String)
        (r0 r1 normalized : Record) (hits : Nat),
        normalize_location_seps db loc bl tol hier seps r0 = some r1 →
        normalize_location_impl db loc bl tol r1 sep hier =
          some (normalized, hits) →
        tol < hits →
        normalize_location_seps db loc bl tol hier (seps ++ sep :: rest) r0 =
          some r1) ∧
    (∀ (db : Store) (loc : String) (bl : BlackList) (tol : Nat)
        (hier : String → Option Nat) (rest : List String) (sep : String)
        (r0 normalized : Record) (hits : Nat),
        normalize_location_impl db loc bl tol r0 sep hier =
          some (normalized, hits) →
        hits ≤ tol →
        normalize_location_seps db loc bl tol hier (sep :: rest) r0 =
          normalize_location_seps db loc bl tol hier rest normalized) ∧
    normalize_location db_c5 "Paris, France" bl_c5 0 = some NOT_FOUND ∧
    normalize_location db_c5 "Paris, France" bl_c5 1 =
      some ⟨some "FRA", some "C", none⟩ := by
  refine ⟨?_, ?_, ?_, by decide, by decide⟩
  · intro db bl tol hier ws result hits h
    cases ws with
    | nil => rfl
    | cons w rest => simp [normalize_words, h]
  · intro db loc bl tol hier seps rest sep
    induction seps with
    | nil =>
      intro r0 r1 normalized hits hrun himpl hgt
      have h0 : normalize_location_seps db loc bl tol hier [] r0 = some r0 :=
        rfl
      rw [h0] at hrun
      obtain rfl := Option.some.inj hrun
      show normalize_location_seps db loc bl tol hier (sep :: rest) r0 =
        some r0
      simp [normalize_location_seps, himpl, hgt]
    | cons s seps' ih =>
      intro r0 r1 normalized hits hrun himpl hgt
      rcases him : normalize_location_impl db loc bl tol r0 s hier with _ | p
      · simp [normalize_location_seps, him] at hrun
      · rcases p with ⟨n0, h0⟩
        by_cases hcut : tol < h0
        · have h1 : normalize_location_seps db loc bl tol hier (s :: seps') r0 =
              some r0 := by
            simp [normalize_location_seps, him, hcut]
          rw [h1] at hrun
          obtain rfl := Option.some.inj hrun
          show normalize_location_seps db loc bl tol hier
            (s :: (seps' ++ sep :: rest)) r0 = some r0
          simp [normalize_location_seps, him, hcut]
        · have hrun' : normalize_location_seps db loc bl tol hier seps' n0 =
              some r1 := by
            simpa [normalize_location_seps, him, hcut] using hrun
          show normalize_location_seps db loc bl tol hier
            (s :: (seps' ++ sep :: rest)) r0 = some r1
          simp only [normalize_location_seps, him, if_neg hcut]
          exact ih n0 r1 normalized hits hrun' himpl hgt
  · intro db loc bl tol hier rest sep r0 normalized hits himpl hle
    simp [normalize_location_seps, himpl, not_lt.mpr hle]

/-- C5 witness: the comma strategy of the tolerance-0 scenario overflows, so
appending the remaining strategies leaves the prior (empty) result final. -/
theorem c5_blacklist_tolerance_witness :
    normalize_location_seps db_c5 "Paris, France" bl_c5 0 RELEVANCE_HIERARCHY
      ([] ++ "," :: ["&", "|", "/", " ("]) NOT_FOUND = some NOT_FOUND :=
  c5_blacklist_tolerance.2.1 db_c5 "Paris, France" bl_c5 0 RELEVANCE_HIERARCHY
    [] ["&", "|", "/", " ("] "," NOT_FOUND NOT_FOUND
    ⟨some "FRA", some "P", some 100⟩ 1 rfl (by decide) (by decide)

/-! ### Claim C7 (confirmed): totality of the query path -/

/-- A store is ranked when every stored record carries a feature class with an
entry in the hierarchy (the hypothesis of claim C7). -/
def RankedStore (db : Store) (hier : String → Option Nat) : Prop :=
  ∀ k r, db k = some r → ∃ fc, r.feature = some fc ∧ (hier fc).isSome = true

/-- The records the query path manipulates: `NOT_FOUND` or a ranked record. -/
def GoodRec (hier : String → Option Nat) (r : Record) : Prop :=
  r = NOT_FOUND ∨ (hlookup hier r.feature).isSome = true

theorem relevance_choice_good (hier : String → Option Nat) (a b : Record)
    (ha : GoodRec hier a) (hb : GoodRec hier b) :
    relevance_choice a b hier = some a ∨ relevance_choice a b hier = some b := by
  by_cases h2 : b = NOT_FOUND
  · left
    simp [relevance_choice, h2]
  · by_cases h1 : a = NOT_FOUND
    · right
      simp [relevance_choice, h1, h2]
    · have ha' : a = NOT_FOUND ∨ (hlookup hier a.feature).isSome = true := ha
      have hb' : b = NOT_FOUND ∨ (hlookup hier b.feature).isSome = true := hb
      rcases ha' with rfl | hka
      · exact absurd rfl h1
      rcases hb' with rfl | hkb
      · exact absurd rfl h2
      rcases hsa : hlookup hier a.feature with _ | k1
      · rw [hsa] at hka
        simp at hka
      rcases hsb : hlookup hier b.feature with _ | k2
      · rw [hsb] at hkb
        simp at hkb
      unfold relevance_choice
      simp only [if_neg h2, if_neg h1, hsa, hsb]
      by_cases hk : k1 = k2
      · by_cases hp : popOr0 b ≤ popOr0 a
        · left
          simp [hk, hp]
        · right
          simp [hk, hp]
      · by_cases hkk : k1 ≤ k2
        · left
          simp [hk, hkk]
        · right
          simp [hk, hkk]

theorem toNat_ofNat_char (n : Nat) (h : n.isValidChar) :
    (Char.ofNat n).toNat = n := by
  rw [Char.ofNat, dif_pos h]
  simp [Char.ofNatAux, Char.toNat, UInt32.toNat]

theorem isUpper_iff (c : Char) :
    c.isUpper = true ↔ 65 ≤ c.toNat ∧ c.toNat ≤ 90 := by
  simp [Char.isUpper, Bool.and_eq_true, decide_eq_true_eq, UInt32.le_def,
    BitVec.le_def, Char.toNat, UInt32.toNat]

/-- ASCII lower-casing never produces an upper-case character. -/
theorem isUpper_toLower (c : Char) : (Char.toLower c).isUpper = false := by
  unfold Char.toLower
  show (if c.toNat ≥ 65 ∧ c.toNat ≤ 90 then
    Char.ofNat (c.toNat + 32) else c).isUpper = false
  split
  · next h =>
    apply Bool.eq_false_iff.mpr
    intro hu
    have hv := (isUpper_iff _).mp hu
    rw [toNat_ofNat_char _ (Or.inl (by omega))] at hv
    omega
  · next h =>
    apply Bool.eq_false_iff.mpr
    intro hu
    have hv := (isUpper_iff _).mp hu
    exact h ⟨hv.1, hv.2⟩

/-- The image of Python `str.lower` never satisfies `str.isupper`: query words
derived by `_transform_word_to_query` are lower-cased, so the key-based
alpha-2 heuristic of `search` never fires on the normalizer's path. -/
theorem isupper_py_lower (s : String) : py_isupper (py_lower s) = false := by
  unfold py_isupper py_lower
  cases hany : (String.mk (s.data.map Char.toLower)).data.any Char.isAlpha
  · simp [hany]
  · rw [List.any_eq_true] at hany
    obtain ⟨c, hc, hca⟩ := hany
    have hall : (String.mk (s.data.map Char.toLower)).data.all
        (fun c => !c.isAlpha || c.isUpper) = false := by
      rw [List.all_eq_false]
      refine ⟨c, hc, ?_⟩
      obtain ⟨c0, _, rfl⟩ := List.mem_map.mp hc
      simp [hca, isUpper_toLower]
    rw [hall]
    simp

theorem search_good (db : Store) (hier : String → Option Nat)
    (hdb : RankedStore db hier) (q : String) (hq : py_isupper q = false) :
    GoodRec hier (search db q) := by
  rcases hdbk : db (search_key q) with _ | R
  · left
    simp [search, hdbk, hq, MISSING, NOT_FOUND]
  · obtain ⟨fc, hfc, hrank⟩ := hdb _ _ hdbk
    right
    suffices h : (search db q).feature = R.feature by
      rw [h, hfc]
      exact hrank
    rcases R with ⟨rc, rf, rp⟩
    simp only [search, hdbk, Option.getD_some]
    rcases rc with _ | c
    · simp [hq]
    · by_cases hlen : c.data.length = 2
      · rcases hdb2 : db (py_upper c) with _ | r2 <;> simp [hdb2, hlen]
      · have hlen' : ¬c.length = 2 := hlen
        simp [hq, hlen, hlen']

theorem normalize_words_total (db : Store) (hier : String → Option Nat)
    (bl : BlackList) (tol : Nat) (hdb : RankedStore db hier) :
    ∀ (ws : List String) (result : Record) (hits : Nat), GoodRec hier result →
    ∃ p, normalize_words db bl tol hier ws result hits = some p ∧
      GoodRec hier p.1 := by
  intro ws
  induction ws with
  | nil =>
    intro result hits hg
    exact ⟨(result, hits), rfl, hg⟩
  | cons w rest ih =>
    intro result hits hg
    by_cases hcut : tol < hits
    · exact ⟨(result, hits), by simp [normalize_words, hcut], hg⟩
    · have hsg : GoodRec hier (search db (transform_word_to_query w)) :=
        search_good db hier hdb _ (isupper_py_lower _)
      by_cases hq : transform_word_to_query w = ""
      · obtain ⟨p, hp, hpg⟩ := ih result
          (hits + (if bl.any (fun pat => pat w) then 1 else 0)) hg
        exact ⟨p, by simp [normalize_words, hcut, hq, hp,
          -List.any_eq_true], hpg⟩
      · obtain ⟨r', hr', hg'⟩ : ∃ r',
            relevance_choice result (search db (transform_word_to_query w))
              hier = some r' ∧ GoodRec hier r' := by
          rcases relevance_choice_good hier result
            (search db (transform_word_to_query w)) hg hsg with h | h
          · exact ⟨result, h, hg⟩
          · exact ⟨search db (transform_word_to_query w), h, hsg⟩
        obtain ⟨p, hp, hpg⟩ := ih r'
          (hits + (if bl.any (fun pat => pat w) then 1 else 0)) hg'
        exact ⟨p, by simp [normalize_words, hcut, hq, hr', hp,
          -List.any_eq_true], hpg⟩

theorem normalize_seps_total (db : Store) (hier : String → Option Nat)
    (bl : BlackList) (tol : Nat) (hdb : RankedStore db hier) (loc : String) :
    ∀ (seps : List String) (result : Record), GoodRec hier result →
    ∃ r, normalize_location_seps db loc bl tol hier seps result = some r := by
  intro seps
  induction seps with
  | nil =>
    intro result _
    exact ⟨result, rfl⟩
  | cons sep rest ih =>
    intro result hg
    obtain ⟨p, hp, hpg⟩ := normalize_words_total db hier bl tol hdb
      ((py_split sep loc).map py_strip) result 0 hg
    rcases p with ⟨n, h⟩
    by_cases hcut : tol < h
    · exact ⟨result,
        by simp [normalize_location_seps, normalize_location_impl, hp, hcut]⟩
    · obtain ⟨r, hr⟩ := ih n hpg
      exact ⟨r,
        by simp [normalize_location_seps, normalize_location_impl, hp, hcut,
          hr]⟩

theorem split_ws_aux_nil (l : List Char)
    (h : ∀ c ∈ l, c.isWhitespace = true) : py_split_ws_aux l [] = [] := by
  induction l with
  | nil => rfl
  | cons c cs ih =>
    have hc := h c (List.mem_cons_self c cs)
    simp only [py_split_ws_aux, hc, if_true]
    exact ih fun x hx => h x (List.mem_cons_of_mem _ hx)

theorem collapse_ws_of_whitespace (s : String)
    (h : ∀ c ∈ s.data, c.isWhitespace = true) : collapse_ws s = "" := by
  unfold collapse_ws py_split_ws join_space
  rw [split_ws_aux_nil s.data h]
  rfl

/-- Whitespace-only characters survive `py_strip`, so stripping preserves the
all-whitespace hypothesis. -/
theorem py_strip_whitespace (s : String)
    (h : ∀ c ∈ s.data, c.isWhitespace = true) :
    ∀ c ∈ (py_strip s).data, c.isWhitespace = true := by
  intro c hc
  apply h
  unfold py_strip at hc
  simp only at hc
  have h1 : c ∈ ((s.data.dropWhile Char.isWhitespace).reverse.dropWhile
      Char.isWhitespace).reverse := hc
  rw [List.mem_reverse] at h1
  have h2 := (List.dropWhile_sublist _).mem h1
  rw [List.mem_reverse] at h2
  exact (List.dropWhile_sublist _).mem h2

/-- C7: with every stored record ranked, the query path is total: the
normalizer always returns a record (never a `KeyError`); `search` of a name
that misses both the direct and the putative alpha-2 lookup is the all-null
`NOT_FOUND`; and an empty or whitespace-only location normalizes to
`NOT_FOUND`.  `search` itself is total by construction — its source touches no
hierarchy and its embedding returns a plain `Record` for every input. -/
theorem c7_query_path_total (db : Store) (bl : BlackList) (tol : Nat)
    (hdb : RankedStore db RELEVANCE_HIERARCHY) :
    (∀ loc, (normalize_location db loc bl tol).isSome = true) ∧
    (∀ g, db (search_key g) = none → db (py_upper (search_key g)) = none →
        search db g = NOT_FOUND) ∧
    (∀ loc, (∀ c ∈ loc.data, c.isWhitespace = true) →
        normalize_location db loc bl tol = some NOT_FOUND) := by
  refine ⟨?_, ?_, ?_⟩
  · intro loc
    by_cases h : collapse_ws (py_strip loc) = ""
    · simp [normalize_location, h]
    · obtain ⟨r, hr⟩ := normalize_seps_total db RELEVANCE_HIERARCHY bl tol hdb
        (collapse_ws (py_strip loc)) CONTENT_SEPARATORS NOT_FOUND (Or.inl rfl)
      simp [normalize_location, h, hr]
  · intro g h1 h2
    by_cases hc : (search_key g).data.length = 2 ∧ py_isupper g = true
    · simp [search, h1, h2, hc, MISSING, NOT_FOUND]
    · have hc' : ¬((search_key g).length = 2 ∧ py_isupper g = true) := hc
      simp [search, h1, hc, hc', MISSING, NOT_FOUND]
  · intro loc hws
    have hcol : collapse_ws (py_strip loc) = "" :=
      collapse_ws_of_whitespace _ (py_strip_whitespace loc hws)
    simp [normalize_location, hcol]

/-- A concrete ranked store for the C7 witness. -/
def db_c7 : Store := fun k =>
  if k = "paris" then some ⟨some "FRA", some "P", some 100⟩ else none

/-- C7 witness: the whitespace-only location `" "` normalizes to `NOT_FOUND`
on a concrete ranked store. -/
theorem c7_query_path_total_witness :
    normalize_location db_c7 " " [] 0 = some NOT_FOUND := by
  have hdb : RankedStore db_c7 RELEVANCE_HIERARCHY := by
    intro k r h
    unfold db_c7 at h
    by_cases hk : k = "paris"
    · rw [if_pos hk] at h
      obtain rfl := Option.some.inj h
      exact ⟨"P", rfl, rfl⟩
    · rw [if_neg hk] at h
      exact Option.noConfusion h
  exact (c7_query_path_total db_c7 [] 0 hdb).2.2 " " (by decide)

/-! ### Claim C9 (corrected): folding `relevance_choice` over permutations -/

/-- Folding `relevance_choice` over a list of candidate records, starting from
`NOT_FOUND` — exactly how the builder and the normalizer accumulate a best
record for one key. -/
def fold_relevance (hier : String → Option Nat) (l : List Record) :
    Option Record :=
  List.foldlM (fun acc r => relevance_choice acc r hier) NOT_FOUND l

/-- A record whose feature class is ranked by the hierarchy. -/
def RankedRec (hier : String → Option Nat) (r : Record) : Prop :=
  (hlookup hier r.feature).isSome = true

instance (hier : String → Option Nat) (r : Record) :
    Decidable (RankedRec hier r) :=
  inferInstanceAs (Decidable ((hlookup hier r.feature).isSome = true))

/-- The strict relevance order induced by `relevance_choice` on ranked
records: a smaller rank wins, and on equal ranks a strictly greater `or 0`
population wins. -/
def beatsB (hier : String → Option Nat) (a b : Record) : Bool :=
  decide ((hlookup hier a.feature).getD 0 < (hlookup hier b.feature).getD 0) ||
    (decide ((hlookup hier a.feature).getD 0 = (hlookup hier b.feature).getD 0)
      && decide (popOr0 b < popOr0 a))

/-- The tie case of `relevance_choice`: equal ranks and equal `or 0`
populations. -/
def rank_tie (hier : String → Option Nat) (a b : Record) : Prop :=
  hlookup hier a.feature = hlookup hier b.feature ∧ popOr0 a = popOr0 b

instance (hier : String → Option Nat) (a b : Record) :
    Decidable (rank_tie hier a b) :=
  inferInstanceAs (Decidable ((hlookup hier a.feature =
    hlookup hier b.feature) ∧ popOr0 a = popOr0 b))

/-- Two concrete records for the C9 counterexample: same rank (`P`), same
population, different countries. -/
def rec_c9a : Record := ⟨some "US", some "P", some 5⟩

/-- Second record of the C9 counterexample. -/
def rec_c9b : Record := ⟨some "CA", some "P", some 5⟩

/-- C9 counterexample: two ranked records that tie on rank and population.
Folding `relevance_choice` over the two orderings of the same two-element set
returns different final records, so the fold is not permutation-invariant as
claimed. -/
theorem c9_fold_permutation_counterexample :
    List.Perm [rec_c9a, rec_c9b] [rec_c9b, rec_c9a] ∧
    (∀ r ∈ [rec_c9a, rec_c9b], RankedRec RELEVANCE_HIERARCHY r) ∧
    fold_relevance RELEVANCE_HIERARCHY [rec_c9a, rec_c9b] = some rec_c9a ∧
    fold_relevance RELEVANCE_HIERARCHY [rec_c9b, rec_c9a] = some rec_c9b ∧
    rec_c9a ≠ rec_c9b :=
  ⟨List.Perm.swap rec_c9b rec_c9a [], by decide, by decide, by decide,
    by decide⟩

theorem ranked_ne_not_found (hier : String → Option Nat) (r : Record)
    (h : RankedRec hier r) : r ≠ NOT_FOUND := by
  intro hr
  rw [hr] at h
  simp [RankedRec, hlookup, NOT_FOUND] at h

theorem relevance_choice_eq_beats (hier : String → Option Nat) (a b : Record)
    (ha : RankedRec hier a) (hb : RankedRec hier b) :
    relevance_choice a b hier = some (if beatsB hier b a then b else a) := by
  rcases hka : hlookup hier a.feature with _ | ka
  · rw [RankedRec, hka] at ha
    simp at ha
  rcases hkb : hlookup hier b.feature with _ | kb
  · rw [RankedRec, hkb] at hb
    simp at hb
  have hane := ranked_ne_not_found hier a ha
  have hbne := ranked_ne_not_found hier b hb
  unfold relevance_choice beatsB
  simp only [if_neg hbne, if_neg hane, hka, hkb, Option.getD_some]
  by_cases hk : ka = kb
  · subst hk
    simp only [if_pos rfl, lt_irrefl, decide_eq_false_iff_not, not_lt]
    by_cases hp : popOr0 a < popOr0 b
    · simp [hp, not_le.mpr hp]
    · simp [hp, not_lt.mp hp]
  · have hk' : kb ≠ ka := fun h => hk h.symm
    simp only [if_neg hk]
    by_cases hkk : kb < ka
    · simp [hkk, not_le.mpr hkk, hk']
    · simp [hkk, not_lt.mp hkk, hk']

theorem beats_asymm (hier : String → Option Nat) (a b : Record)
    (h1 : beatsB hier a b = true) (h2 : beatsB hier b a = true) : False := by
  simp only [beatsB, Bool.or_eq_true, Bool.and_eq_true, decide_eq_true_eq]
    at h1 h2
  omega

theorem beats_trans (hier : String → Option Nat) (a b c : Record)
    (h1 : beatsB hier a b = true) (h2 : beatsB hier b c = true) :
    beatsB hier a c = true := by
  simp only [beatsB, Bool.or_eq_true, Bool.and_eq_true, decide_eq_true_eq]
    at h1 h2 ⊢
  omega

theorem beats_total (hier : String → Option Nat) (a b : Record)
    (h : ¬rank_tie hier a b) (ha : RankedRec hier a) (hb : RankedRec hier b) :
    beatsB hier a b = true ∨ beatsB hier b a = true := by
  rcases hka : hlookup hier a.feature with _ | ka
  · rw [RankedRec, hka] at ha
    simp at ha
  rcases hkb : hlookup hier b.feature with _ | kb
  · rw [RankedRec, hkb] at hb
    simp at hb
  rw [rank_tie, hka, hkb] at h
  simp only [Option.some.injEq] at h
  simp only [beatsB, hka, hkb, Option.getD_some, Bool.or_eq_true,
    Bool.and_eq_true, decide_eq_true_eq]
  by_cases hk : ka = kb
  · subst hk
    have hp : ¬popOr0 a = popOr0 b := fun he => h ⟨rfl, he⟩
    omega
  · omega

theorem fold_relevance_from (hier : String → Option Nat) (l : List Record) :
    ∀ acc : Record, RankedRec hier acc →
    (∀ r ∈ l, RankedRec hier r) →
    (∀ a b : Record, (a = acc ∨ a ∈ l) → (b = acc ∨ b ∈ l) → a ≠ b →
      ¬rank_tie hier a b) →
    ∃ m, List.foldlM (fun acc r => relevance_choice acc r hier) acc l =
        some m ∧
      (m = acc ∨ m ∈ l) ∧
      (∀ r : Record, (r = acc ∨ r ∈ l) → r = m ∨ beatsB hier m r = true) := by
  induction l with
  | nil =>
    intro acc hacc _ _
    refine ⟨acc, rfl, Or.inl rfl, ?_⟩
    intro r hr
    rcases hr with rfl | hr
    · exact Or.inl rfl
    · exact absurd hr (List.not_mem_nil r)
  | cons x xs ih =>
    intro acc hacc hranked hnotie
    have hx : RankedRec hier x := hranked x (List.mem_cons_self x xs)
    have hrc := relevance_choice_eq_beats hier acc x hacc hx
    have hacc' : RankedRec hier (if beatsB hier x acc then x else acc) := by
      by_cases hb : beatsB hier x acc <;> simp [hb, hx, hacc]
    have hsub : ∀ a : Record,
        (a = (if beatsB hier x acc then x else acc) ∨ a ∈ xs) →
        (a = acc ∨ a ∈ x :: xs) := by
      intro a haa
      rcases haa with rfl | haa
      · by_cases hb : beatsB hier x acc
        · simp only [if_pos hb]
          exact Or.inr (List.mem_cons_self x xs)
        · rw [if_neg hb]
          exact Or.inl rfl
      · exact Or.inr (List.mem_cons_of_mem _ haa)
    obtain ⟨m, hm, hmem, hmax⟩ := ih (if beatsB hier x acc then x else acc)
      hacc' (fun r hr => hranked r (List.mem_cons_of_mem _ hr))
      (fun a b haa hbb => hnotie a b (hsub a haa) (hsub b hbb))
    refine ⟨m, ?_, ?_, ?_⟩
    · rw [List.foldlM_cons, hrc]
      exact hm
    · rcases hmem with rfl | hmem
      · by_cases hb : beatsB hier x acc
        · simp only [if_pos hb]
          exact Or.inr (List.mem_cons_self x xs)
        · rw [if_neg hb]
          exact Or.inl rfl
      · exact Or.inr (List.mem_cons_of_mem _ hmem)
    · have hcover : ∀ r : Record,
          (r = (if beatsB hier x acc then x else acc) ∨ r ∈ xs) →
          r = m ∨ beatsB hier m r = true := hmax
      have hacc_cov : acc = m ∨ beatsB hier m acc = true := by
        by_cases hb : beatsB hier x acc
        · have hsel : x = (if beatsB hier x acc then x else acc) :=
            (if_pos hb).symm
          rcases hcover x (Or.inl hsel) with rfl | hmx
          · right
            exact hb
          · right
            exact beats_trans hier m x acc hmx hb
        · have hsel : acc = (if beatsB hier x acc then x else acc) :=
            (if_neg hb).symm
          exact hcover acc (Or.inl hsel)
      have hx_cov : x = m ∨ beatsB hier m x = true := by
        by_cases hb : beatsB hier x acc
        · have hsel : x = (if beatsB hier x acc then x else acc) :=
            (if_pos hb).symm
          exact hcover x (Or.inl hsel)
        · by_cases hxa : x = acc
          · rw [hxa]
            exact hacc_cov
          · have htot := beats_total hier acc x
              (fun ht => hnotie acc x (Or.inl rfl)
                (Or.inr (List.mem_cons_self x xs)) (fun he => hxa he.symm) ht)
              hacc hx
            have hax : beatsB hier acc x = true := by
              rcases htot with h | h
              · exact h
              · exact absurd h (by simp [hb])
            rcases hacc_cov with rfl | hmacc
            · right
              exact hax
            · right
              exact beats_trans hier m acc x hmacc hax
      intro r hr
      rcases hr with rfl | hr
      · exact hacc_cov
      rcases List.mem_cons.mp hr with rfl | hr
      · exact hx_cov
      · exact hcover r (Or.inr hr)

theorem fold_relevance_spec (hier : String → Option Nat) (l : List Record)
    (hl : l ≠ []) (hranked : ∀ r ∈ l, RankedRec hier r)
    (hnotie : ∀ a ∈ l, ∀ b ∈ l, a ≠ b → ¬rank_tie hier a b) :
    ∃ m, fold_relevance hier l = some m ∧ m ∈ l ∧
      (∀ r ∈ l, r = m ∨ beatsB hier m r = true) := by
  rcases l with _ | ⟨x, xs⟩
  · exact absurd rfl hl
  have hx : RankedRec hier x := hranked x (List.mem_cons_self x xs)
  have hrc0 : relevance_choice NOT_FOUND x hier = some x := by
    have hxne := ranked_ne_not_found hier x hx
    simp [relevance_choice, hxne]
  obtain ⟨m, hm, hmem, hmax⟩ := fold_relevance_from hier xs x hx
    (fun r hr => hranked r (List.mem_cons_of_mem _ hr))
    (fun a b haa hbb hab => by
      refine hnotie a ?_ b ?_ hab
      · rcases haa with rfl | haa
        · exact List.mem_cons_self a xs
        · exact List.mem_cons_of_mem _ haa
      · rcases hbb with rfl | hbb
        · exact List.mem_cons_self b xs
        · exact List.mem_cons_of_mem _ hbb)
  refine ⟨m, ?_, ?_, ?_⟩
  · rw [fold_relevance, List.foldlM_cons, hrc0]
    exact hm
  · rcases hmem with rfl | hmem
    · exact List.mem_cons_self m xs
    · exact List.mem_cons_of_mem _ hmem
  · intro r hr
    rcases List.mem_cons.mp hr with rfl | hr
    · exact hmax r (Or.inl rfl)
    · exact hmax r (Or.inr hr)

/-- C9 (amended): folding `relevance_choice` over any permutation of a set of
candidate records — each with a ranked feature class — yields the same final
record, provided no two distinct records of the set tie (same rank and same
`or 0` population).  With such a tie, distinct permutations can return
different tied operands, as the counterexample shows. -/
theorem c9_fold_permutation_amended (hier : String → Option Nat)
    (l1 l2 : List Record) (hperm : List.Perm l1 l2)
    (hranked : ∀ r ∈ l1, RankedRec hier r)
    (hnotie : ∀ a ∈ l1, ∀ b ∈ l1, a ≠ b → ¬rank_tie hier a b) :
    fold_relevance hier l1 = fold_relevance hier l2 := by
  rcases l1 with _ | ⟨x, xs⟩
  · have h2 : l2 = [] := List.Perm.eq_nil hperm.symm
    rw [h2]
  · have hne1 : x :: xs ≠ [] := List.cons_ne_nil x xs
    have hne2 : l2 ≠ [] := by
      intro h
      subst h
      exact absurd (List.Perm.eq_nil hperm) hne1
    obtain ⟨m1, hf1, hm1, hmax1⟩ := fold_relevance_spec hier (x :: xs) hne1
      hranked hnotie
    obtain ⟨m2, hf2, hm2, hmax2⟩ := fold_relevance_spec hier l2 hne2
      (fun r hr => hranked r (hperm.mem_iff.mpr hr))
      (fun a ha b hb hab => hnotie a (hperm.mem_iff.mpr ha) b
        (hperm.mem_iff.mpr hb) hab)
    rw [hf1, hf2]
    have hm2' : m2 ∈ x :: xs := hperm.mem_iff.mpr hm2
    have hm1' : m1 ∈ l2 := hperm.mem_iff.mp hm1
    rcases hmax1 m2 hm2' with h | h
    · rw [h]
    · rcases hmax2 m1 hm1' with h' | h'
      · rw [h']
      · exact (beats_asymm hier m1 m2 h h').elim

/-- Records for the C9 witness: distinct ranks, so no tie. -/
def rec_c9c : Record := ⟨some "USA", some "C", none⟩

/-- Second record of the C9 witness. -/
def rec_c9p : Record := ⟨some "US", some "P", some 5⟩

/-- C9 witness: with distinct ranks, both orderings of the two-record set fold
to the same record. -/
theorem c9_fold_permutation_amended_witness :
    fold_relevance RELEVANCE_HIERARCHY [rec_c9p, rec_c9c] =
      fold_relevance RELEVANCE_HIERARCHY [rec_c9c, rec_c9p] :=
  c9_fold_permutation_amended RELEVANCE_HIERARCHY [rec_c9p, rec_c9c]
    [rec_c9c, rec_c9p] (List.Perm.swap rec_c9c rec_c9p []) (by decide)
    (by decide)

end Countrywizard
